import Mathlib

/-!
Verification of the code_refinery repository against its design specification.

The frontend (Monaco editor wrapper, axios API client, page state handling,
request/response types) is embedded directly from the TypeScript sources.
The backend orchestration core (Orchestrator, Provider Adapters, Result
Selector) is not present in the available sources; those components are
modelled from the specification text, and each such definition is marked
`Modelled from the spec:` in its doc string.
-/

namespace CodeRefinery

/-! Section: Generic string helpers (executable embeddings of JS string semantics) -/

/-- JavaScript-style `x || d` over an optional string: an absent value and the
empty string are both falsy, so they fall through to the default. -/
def jsOrS : Option String → String → String
  | some s, d => if s = "" then d else s
  | none, d => d

/-- ASCII lower-casing of one character, as JS `toLowerCase` acts on ASCII. -/
def charToLower (c : Char) : Char :=
  if 'A' ≤ c ∧ c ≤ 'Z' then Char.ofNat (c.toNat + 32) else c

/-- Embedding of JS `String.prototype.toLowerCase` (ASCII range). -/
def toLowerS (s : String) : String :=
  ⟨s.toList.map charToLower⟩

/-- Whitespace test used by JS `String.prototype.trim`. -/
def isWS (c : Char) : Bool :=
  c = ' ' || c = '\t' || c = '\n' || c = '\r'

/-- Trim on character lists: drop whitespace from both ends. -/
def jsTrimL (l : List Char) : List Char :=
  ((l.dropWhile isWS).reverse.dropWhile isWS).reverse

/-- Embedding of JS `String.prototype.trim`. -/
def jsTrim (s : String) : String :=
  ⟨jsTrimL s.toList⟩

/-- Does the first list start with the second one? -/
def startsWithL : List Char → List Char → Bool
  | _, [] => true
  | [], _ :: _ => false
  | a :: as, b :: bs => a = b && startsWithL as bs

/-- Does the list end with the pattern? -/
def endsWithL (l pat : List Char) : Bool :=
  startsWithL l.reverse pat.reverse

/-- Does the list contain the pattern as a contiguous sublist? -/
def containsL (pat : List Char) : List Char → Bool
  | [] => startsWithL [] pat
  | c :: cs => startsWithL (c :: cs) pat || containsL pat cs

/-- Embedding of JS `String.prototype.startsWith`. -/
def strStarts (s pat : String) : Bool :=
  startsWithL s.toList pat.toList

/-- Embedding of JS `String.prototype.includes`. -/
def strIncludes (s pat : String) : Bool :=
  containsL pat.toList s.toList

/-- First-match association-list lookup, the embedding of a JS object
property access `obj[key]`. -/
def mapLookup : List (String × String) → String → Option String
  | [], _ => none
  | (k, v) :: rest, key => if key = k then some v else mapLookup rest key

/-! Section: Frontend: CodeEditor component -/

/-- The `languageMap` object of `getMonacoLanguage` in the CodeEditor
component, in source order. -/
def languageMap : List (String × String) :=
  [("cpp", "cpp"), ("c", "c"), ("csharp", "csharp"), ("python", "python"),
   ("javascript", "javascript"), ("typescript", "typescript"),
   ("java", "java"), ("go", "go"), ("rust", "rust"), ("php", "php"),
   ("ruby", "ruby"), ("swift", "swift"), ("kotlin", "kotlin"),
   ("scala", "scala"), ("r", "r"), ("sql", "sql"), ("html", "html"),
   ("css", "css")]

/-- `getMonacoLanguage` from the CodeEditor component:
`languageMap[lang.toLowerCase()] || 'plaintext'`. -/
def getMonacoLanguage (lang : String) : String :=
  jsOrS (mapLookup languageMap (toLowerS lang)) "plaintext"

/-! Section: Frontend: API service (axios client) -/

/-- The shape of an axios error object as discriminated by the response
interceptor: a server response (with status and optional `data.detail` /
`data.message`), a request that got no response, or a setup error. -/
inductive ApiError
  | response (status : Nat) (detail : Option String) (message : Option String)
  | request (info : String)
  | setup (message : String)
deriving DecidableEq

/-- The message of the `Error` thrown by the response interceptor's error
handler in the API service. -/
def interceptorMessage : ApiError → String
  | .response status detail message =>
      if status = 401 then
        "Authentication failed: Please check your API token or contact the administrator."
      else
        "Server Error (" ++ toString status ++ "): " ++
          jsOrS detail (jsOrS message "Server error")
  | .request _ =>
      "Network error: Unable to connect to the server. Please check if the backend is running."
  | .setup m => "Request error: " ++ m

/-- The body of the `/auth/status` response consumed by `checkAuthStatus`. -/
structure AuthStatusData where
  authenticated : Bool
  user : Option String
  message : Option String
deriving DecidableEq

/-- `checkAuthStatus` from the API service: the awaited `api.get` either
yields data or throws the interceptor's `Error`; the catch block returns
`{ authenticated: false, message }` when the error message includes
`Authentication failed`, and rethrows otherwise. -/
def checkAuthStatus (r : Except ApiError AuthStatusData) :
    Except String AuthStatusData :=
  match r with
  | .ok d => .ok d
  | .error e =>
      let msg := interceptorMessage e
      if strIncludes msg "Authentication failed" then
        .ok { authenticated := false, user := none, message := some msg }
      else
        .error msg

/-! Section: Frontend: request/response types and page state -/

/-- The `RefactorResponse` interface of the frontend type definitions. -/
structure RefactorResponse where
  refactored_code : String
  language : String
  success : Bool
  error : Option String
deriving DecidableEq

/-- The field names of the `RefactorResponse` interface, in declaration
order. -/
def RefactorResponse.fieldNames : List String :=
  ["refactored_code", "language", "success", "error"]

/-- The `AppState` interface of the frontend type definitions. -/
structure AppState where
  inputCode : String
  outputCode : String
  language : String
  focus : String
  isLoading : Bool
  error : Option String
deriving DecidableEq

/-- A JS thrown value: either an `Error` instance with a message, or any
other value. -/
inductive Thrown
  | errObj (message : String)
  | nonErr
deriving DecidableEq

/-- `handleRefactor` from the page component, as a state transition: the
guards run first; otherwise the handler sets `isLoading` and clears the
error, awaits `refactorCode` (whose settled result is the `call` argument),
and installs the outcome. -/
def handleRefactor (backendStatus authStatus : String) (st : AppState)
    (call : Except Thrown RefactorResponse) : AppState :=
  if jsTrim st.inputCode = "" then
    { st with error := some "Please enter some code to refactor." }
  else if backendStatus ≠ "connected" then
    { st with error := some "Backend service is not available. Please check the connection." }
  else if authStatus = "failed" then
    { st with error := some "Authentication failed. Please check your API token configuration." }
  else
    let st1 : AppState := { st with isLoading := true, error := none }
    match call with
    | .ok r =>
        if r.success then
          { st1 with outputCode := r.refactored_code, isLoading := false }
        else
          { st1 with error := some (jsOrS r.error "Refactoring failed"),
                     isLoading := false }
    | .error t =>
        let msg := match t with
          | .errObj m => m
          | .nonErr => "An unexpected error occurred"
        { st1 with error := some msg, isLoading := false }

/-! Section: Backend core, modelled from the specification

The orchestration core (Orchestrator, Provider Adapters, Result Selector) is
not among the available sources; every definition below is modelled from the
specification's description of those components. -/

/-- Modelled from the spec: the `ErrorKind` taxonomy of the error handling
design (the backend error classification is missing from the sources). -/
inductive ErrorKind
  | Timeout
  | RateLimited
  | AuthRejected
  | MalformedResponse
  | TransportError
  | NoProvidersAvailable
  | InvalidRequest
deriving DecidableEq

/-- Modelled from the spec: transient kinds are timeout and rate-limit;
auth and malformed failures are not transient. -/
def isTransient : ErrorKind → Bool
  | .Timeout => true
  | .RateLimited => true
  | _ => false

/-- Human-readable label of an `ErrorKind`, used in aggregated diagnostics. -/
def kindLabel : ErrorKind → String
  | .Timeout => "Timeout"
  | .RateLimited => "RateLimited"
  | .AuthRejected => "AuthRejected"
  | .MalformedResponse => "MalformedResponse"
  | .TransportError => "TransportError"
  | .NoProvidersAvailable => "NoProvidersAvailable"
  | .InvalidRequest => "InvalidRequest"

/-- Modelled from the spec: the `ProviderOutcome` tagged union of the data
model (the backend outcome type is missing from the sources). -/
inductive ProviderOutcome
  | Success (refactored_code provider_id : String) (latency_ms : Nat)
  | Failure (provider_id : String) (kind : ErrorKind) (message : String)
deriving DecidableEq

/-- Modelled from the spec: the `RefactorResult` record of the data model
(the backend result type is missing from the sources). -/
structure RefactorResult where
  refactored_code : String
  success : Bool
  error : Option String
  chosen_provider : Option String
deriving DecidableEq

/-- Modelled from the spec: the `RefactorRequest` record of the data model. -/
structure RefactorRequest where
  source_code : String
  target_language : String
deriving DecidableEq

/-- Modelled from the spec: the `ProviderConfig` record of the data model. -/
structure ProviderConfig where
  provider_id : String
  credential_ref : String
  timeout_ms : Nat
  enabled : Bool
deriving DecidableEq

/-- Modelled from the spec: the Orchestrator's injected configuration — the
provider list plus the Selector's optional preferred provider. -/
structure OrchestratorConfig where
  providers : List ProviderConfig
  preferred : Option String
deriving DecidableEq

/-- The supported target languages, as listed by the frontend language
selector. -/
def supportedLanguages : List String :=
  ["python", "javascript", "typescript", "java", "cpp", "c", "csharp", "go",
   "rust", "php", "ruby", "swift", "kotlin", "scala", "r", "sql", "html",
   "css"]

/-- Modelled from the spec: request validation — non-empty code and a
supported language; a violation is an `InvalidRequest` (the backend
validation code is missing from the sources). -/
def validateRequest (r : RefactorRequest) : Option ErrorKind :=
  if r.source_code = "" then some .InvalidRequest
  else if supportedLanguages.contains r.target_language then none
  else some .InvalidRequest

/-! Section: Result Selector, modelled from the specification -/

/-- A successful outcome's payload, as consumed by the Selector. -/
structure SuccessRec where
  code : String
  pid : String
  latency : Nat
deriving DecidableEq

/-- The successful outcomes of an outcome set, in order. -/
def successRecs (outcomes : List ProviderOutcome) : List SuccessRec :=
  outcomes.filterMap fun o =>
    match o with
    | .Success c p l => some ⟨c, p, l⟩
    | .Failure _ _ _ => none

/-- Strict lexicographic order on character lists (executable). -/
def lexLt : List Char → List Char → Bool
  | _, [] => false
  | [], _ :: _ => true
  | a :: as, b :: bs => if a = b then lexLt as bs else decide (a < b)

/-- Strict lexicographic order on strings, used to break latency ties by
the lexicographically smallest provider id. -/
def pidLt (a b : String) : Bool :=
  lexLt a.toList b.toList

/-- Modelled from the spec: `a` is strictly better than `b` when it has
lower latency, or equal latency and the lexicographically smaller provider
id. -/
def betterThan (a b : SuccessRec) : Bool :=
  decide (a.latency < b.latency) ||
    (decide (a.latency = b.latency) && pidLt a.pid b.pid)

/-- The best of `a` and the records in `l`, by `betterThan`. -/
def pickMin (a : SuccessRec) (l : List SuccessRec) : SuccessRec :=
  l.foldl (fun acc x => if betterThan x acc then x else acc) a

/-- Modelled from the spec: the lowest-latency success, ties broken by the
lexicographically smallest provider id. -/
def pickBest : List SuccessRec → Option SuccessRec
  | [] => none
  | s :: rest => some (pickMin s rest)

/-- Modelled from the spec: the aggregated diagnostic string built from all
providers' failures. -/
def failureDiag (outcomes : List ProviderOutcome) : String :=
  String.intercalate "; " (outcomes.filterMap fun o =>
    match o with
    | .Failure p k m => some (p ++ ": " ++ kindLabel k ++ ": " ++ m)
    | .Success _ _ _ => none)

/-- Modelled from the spec: the preferred provider's successful outcome, if
one is configured and it succeeded. -/
def preferredSuccess (preferred : Option String) (succ : List SuccessRec) :
    Option SuccessRec :=
  match preferred with
  | some p => succ.find? (fun s : SuccessRec => s.pid == p)
  | none => none

/-- Modelled from the spec: the Result Selector `select` — a successful
preferred provider wins; else the lowest-latency success with the
provider-id tie-break; else `success:false` with the aggregated
diagnostic (the backend selector code is missing from the sources). -/
def select (preferred : Option String) (outcomes : List ProviderOutcome) :
    RefactorResult :=
  match preferredSuccess preferred (successRecs outcomes) with
  | some s =>
      { refactored_code := s.code, success := true, error := none,
        chosen_provider := some s.pid }
  | none =>
      match pickBest (successRecs outcomes) with
      | some s =>
          { refactored_code := s.code, success := true, error := none,
            chosen_provider := some s.pid }
      | none =>
          { refactored_code := "", success := false,
            error := some (failureDiag outcomes), chosen_provider := none }

/-! Section: Provider Adapter, modelled from the specification -/

/-- Modelled from the spec: what one underlying vendor call does — either it
produces an outcome value or it raises (transport error etc.); the adapter
must catch the latter (the backend adapter code is missing from the
sources). -/
inductive AdapterRaw
  | value (o : ProviderOutcome)
  | thrown (message : String)
deriving DecidableEq

/-- Modelled from the spec: adapter-side normalization — trim and strip a
surrounding markdown code fence. -/
def normalizeCode (s : String) : String :=
  let t := jsTrim s
  let l := t.toList
  let fence := "```".toList
  if startsWithL l fence && endsWithL l fence then
    ⟨jsTrimL ((l.drop 3).take (l.length - 6))⟩
  else t

/-- Modelled from the spec: a successful outcome whose code is empty after
normalization becomes a `MalformedResponse` failure, not a thrown error. -/
def normalizeOutcome : ProviderOutcome → ProviderOutcome
  | .Success code pid lat =>
      let c := normalizeCode code
      if c = "" then
        .Failure pid .MalformedResponse "empty refactored code after normalization"
      else .Success c pid lat
  | .Failure p k m => .Failure p k m

/-- Modelled from the spec: the adapter's `call` — it never raises; a raised
vendor error is captured as a `TransportError` failure, and a returned value
is normalized. -/
def adapterCall (p : ProviderConfig) (raw : AdapterRaw) : ProviderOutcome :=
  match raw with
  | .value o => normalizeOutcome o
  | .thrown m => .Failure p.provider_id .TransportError m

/-- Modelled from the spec: one retry after a transient failure; the second
attempt's outcome is final; non-transient failures are not retried. The
second component records one entry per attempt made. -/
def callWithRetry (p : ProviderConfig) (beh : Nat → AdapterRaw) :
    ProviderOutcome × List String :=
  match adapterCall p (beh 0) with
  | .Failure pid k m =>
      if isTransient k then
        (adapterCall p (beh 1), [p.provider_id, p.provider_id])
      else (.Failure pid k m, [p.provider_id])
  | .Success c pid lat => (.Success c pid lat, [p.provider_id])

/-! Section: Orchestrator, modelled from the specification -/

/-- The result returned when request validation fails. -/
def validationFailResult (k : ErrorKind) : RefactorResult :=
  { refactored_code := "", success := false, error := some (kindLabel k),
    chosen_provider := none }

/-- The result returned when no provider is enabled. -/
def noProvidersResult : RefactorResult :=
  validationFailResult .NoProvidersAvailable

/-- Modelled from the spec: the Orchestrator `refactor` — validate, build
the enabled provider set, fan out one call per enabled provider, collect
every settled outcome, and pass the complete set to the Selector. The
second component is the trace of adapter attempts (one entry per attempt),
empty when no provider was called. `beh` gives each provider's attempt
behavior. -/
def refactorTraced (cfg : OrchestratorConfig)
    (beh : String → Nat → AdapterRaw) (req : RefactorRequest) :
    RefactorResult × List String :=
  match validateRequest req with
  | some k => (validationFailResult k, [])
  | none =>
      let enabled := cfg.providers.filter fun p => p.enabled
      if enabled.isEmpty then (noProvidersResult, [])
      else
        let results := enabled.map fun p => callWithRetry p (beh p.provider_id)
        (select cfg.preferred (results.map Prod.fst),
         (results.map Prod.snd).flatten)

/-- The Orchestrator's user-visible verdict. -/
def refactor (cfg : OrchestratorConfig) (beh : String → Nat → AdapterRaw)
    (req : RefactorRequest) : RefactorResult :=
  (refactorTraced cfg beh req).1

/-! Section: Exception-aware pipeline

The same pipeline written over `Except String`, where `.error` models an
exception propagating out of the core; proving it always returns `.ok`
establishes that no adapter- or provider-level error escapes as a raised
error. -/

/-- The raw vendor call as a fallible computation: a raised error is an
exception. -/
def rawToExcept : AdapterRaw → Except String ProviderOutcome
  | .value o => .ok o
  | .thrown m => .error m

/-- Modelled from the spec: the adapter's `call` with its try/catch made
explicit — the vendor call's exception is caught and converted to a
`TransportError` failure. -/
def adapterCallE (p : ProviderConfig) (raw : AdapterRaw) :
    Except String ProviderOutcome :=
  match rawToExcept raw with
  | .ok o => .ok (normalizeOutcome o)
  | .error m => .ok (.Failure p.provider_id .TransportError m)

/-- The retry wrapper over the exception-aware adapter call. -/
def callWithRetryE (p : ProviderConfig) (beh : Nat → AdapterRaw) :
    Except String ProviderOutcome :=
  match adapterCallE p (beh 0) with
  | .error m => .error m
  | .ok (.Failure pid k m) =>
      if isTransient k then adapterCallE p (beh 1)
      else .ok (.Failure pid k m)
  | .ok (.Success c pid lat) => .ok (.Success c pid lat)

/-- The fan-out over the enabled providers: collect every provider's settled
outcome; an uncaught exception in any call would propagate. -/
def fanOutE (beh : String → Nat → AdapterRaw) :
    List ProviderConfig → Except String (List ProviderOutcome)
  | [] => .ok []
  | p :: ps =>
      match callWithRetryE p (beh p.provider_id) with
      | .error m => .error m
      | .ok o =>
          match fanOutE beh ps with
          | .error m => .error m
          | .ok os => .ok (o :: os)

/-- The Orchestrator over the exception-aware pipeline. -/
def refactorE (cfg : OrchestratorConfig) (beh : String → Nat → AdapterRaw)
    (req : RefactorRequest) : Except String RefactorResult :=
  match validateRequest req with
  | some k => .ok (validationFailResult k)
  | none =>
      let enabled := cfg.providers.filter fun p => p.enabled
      if enabled.isEmpty then .ok noProvidersResult
      else
        match fanOutE beh enabled with
        | .error m => .error m
        | .ok outcomes => .ok (select cfg.preferred outcomes)

/-! Section: Concrete fixtures used to instantiate the theorems -/

/-- A concrete provider configuration. -/
def pA : ProviderConfig :=
  { provider_id := "A", credential_ref := "credA", timeout_ms := 1000,
    enabled := true }

/-- A second concrete provider configuration. -/
def pB : ProviderConfig :=
  { provider_id := "B", credential_ref := "credB", timeout_ms := 1000,
    enabled := true }

/-- A concrete orchestrator configuration with two enabled providers. -/
def cfgAB : OrchestratorConfig :=
  { providers := [pA, pB], preferred := none }

/-- A concrete behavior: provider A succeeds, provider B times out. -/
def behAB : String → Nat → AdapterRaw := fun pid _ =>
  if pid = "A" then .value (.Success "print(1)  # refactored" "A" 200)
  else .value (.Failure "B" .Timeout "timed out")

/-- A concrete per-attempt behavior: the first attempt times out, the
second succeeds. -/
def behT : Nat → AdapterRaw := fun n =>
  if n = 0 then .value (.Failure "A" .Timeout "slow")
  else .value (.Success "ok" "A" 50)

/-- A concrete valid request. -/
def reqPy : RefactorRequest :=
  { source_code := "print(1)", target_language := "python" }

/-- A concrete request with empty source code. -/
def reqEmpty : RefactorRequest :=
  { source_code := "", target_language := "python" }

/-- A concrete application state with non-blank input. -/
def stW : AppState :=
  { inputCode := "print(1)", outputCode := "", language := "python",
    focus := "readability", isLoading := true, error := none }

/-- A concrete outcome set: one failure and two successes with equal
latency and distinct provider ids. -/
def outcomesW : List ProviderOutcome :=
  [.Failure "C" .Timeout "slow",
   .Success "codeB" "B" 100,
   .Success "codeA" "A" 100]

end CodeRefinery

namespace CodeRefinery

/-! Section: Helper lemmas -/

theorem mapLookup_mem {l : List (String × String)} {k v : String}
    (h : mapLookup l k = some v) : (k, v) ∈ l := by
  induction l with
  | nil => simp [mapLookup] at h
  | cons p rest ih =>
      rcases p with ⟨pk, pv⟩
      by_cases hk : k = pk
      · subst hk
        rw [mapLookup, if_pos rfl] at h
        cases h
        exact List.mem_cons_self _ _
      · rw [mapLookup, if_neg hk] at h
        exact List.mem_cons_of_mem _ (ih h)

theorem lexLt_irrefl : ∀ l : List Char, lexLt l l = false := by
  intro l
  induction l with
  | nil => rfl
  | cons c cs ih => simp [lexLt, ih]

theorem lexLt_trans (a : List Char) :
    ∀ b c, lexLt a b = true → lexLt b c = true → lexLt a c = true := by
  induction a with
  | nil =>
      intro b c h1 h2
      cases b with
      | nil => exact absurd h1 (by simp [lexLt])
      | cons b0 bs =>
          cases c with
          | nil => exact absurd h2 (by simp [lexLt])
          | cons c0 cs => rfl
  | cons a0 as ih =>
      intro b c h1 h2
      cases b with
      | nil => exact absurd h1 (by simp [lexLt])
      | cons b0 bs =>
          cases c with
          | nil => exact absurd h2 (by simp [lexLt])
          | cons c0 cs =>
              simp only [lexLt] at h1 h2 ⊢
              by_cases hab : a0 = b0
              · subst hab
                rw [if_pos rfl] at h1
                by_cases hac : a0 = c0
                · subst hac
                  rw [if_pos rfl] at h2 ⊢
                  exact ih bs cs h1 h2
                · rw [if_neg hac] at h2 ⊢
                  exact h2
              · rw [if_neg hab] at h1
                by_cases hbc : b0 = c0
                · subst hbc
                  rw [if_neg hab]
                  exact h1
                · rw [if_neg hbc] at h2
                  have hlt : a0 < c0 :=
                    lt_trans (of_decide_eq_true h1) (of_decide_eq_true h2)
                  rw [if_neg (ne_of_lt hlt)]
                  exact decide_eq_true hlt

theorem lexLt_asymm {a b : List Char} (h : lexLt a b = true) :
    lexLt b a = false := by
  cases hba : lexLt b a with
  | false => rfl
  | true =>
      have := lexLt_trans a b a h hba
      rw [lexLt_irrefl] at this
      exact absurd this (by simp)

theorem lexLt_false_total (a : List Char) :
    ∀ b, lexLt a b = false → lexLt b a = true ∨ a = b := by
  induction a with
  | nil =>
      intro b h
      cases b with
      | nil => exact Or.inr rfl
      | cons b0 bs => exact absurd h (by simp [lexLt])
  | cons a0 as ih =>
      intro b h
      cases b with
      | nil => exact Or.inl rfl
      | cons b0 bs =>
          simp only [lexLt] at h ⊢
          by_cases hab : a0 = b0
          · subst hab
            rw [if_pos rfl] at h
            rcases ih bs h with h1 | h1
            · exact Or.inl (by rw [if_pos rfl]; exact h1)
            · exact Or.inr (by rw [h1])
          · rw [if_neg hab] at h
            have hba : b0 < a0 :=
              lt_of_le_of_ne (le_of_not_lt (of_decide_eq_false h))
                (fun hc => hab hc.symm)
            refine Or.inl ?_
            rw [if_neg (fun hc : b0 = a0 => hab hc.symm)]
            exact decide_eq_true hba

theorem pidLt_irrefl (s : String) : pidLt s s = false :=
  lexLt_irrefl _

theorem pidLt_trans {a b c : String} (h1 : pidLt a b = true)
    (h2 : pidLt b c = true) : pidLt a c = true :=
  lexLt_trans _ _ _ h1 h2

theorem pidLt_asymm {a b : String} (h : pidLt a b = true) :
    pidLt b a = false :=
  lexLt_asymm h

theorem pidLt_false_total {a b : String} (h : pidLt a b = false) :
    pidLt b a = true ∨ a = b := by
  rcases lexLt_false_total a.toList b.toList h with h1 | h1
  · exact Or.inl h1
  · exact Or.inr (String.toList_inj.mp h1)

theorem betterThan_true_parts {u v : SuccessRec} (h : betterThan u v = true) :
    u.latency < v.latency ∨
      (u.latency = v.latency ∧ pidLt u.pid v.pid = true) := by
  unfold betterThan at h
  rcases Bool.or_eq_true_iff.mp h with h1 | h1
  · exact Or.inl (of_decide_eq_true h1)
  · rcases Bool.and_eq_true_iff.mp h1 with ⟨h2, h3⟩
    exact Or.inr ⟨of_decide_eq_true h2, h3⟩

theorem betterThan_false_parts {u v : SuccessRec} (h : betterThan u v = false) :
    v.latency ≤ u.latency ∧
      (u.latency = v.latency → pidLt u.pid v.pid = false) := by
  unfold betterThan at h
  have h1 : decide (u.latency < v.latency) = false := by
    cases hd : decide (u.latency < v.latency)
    · rfl
    · rw [hd] at h; simp at h
  have h2 : (decide (u.latency = v.latency) && pidLt u.pid v.pid) = false := by
    rw [h1] at h; simpa using h
  refine ⟨Nat.le_of_not_lt (of_decide_eq_false h1), fun he => ?_⟩
  rw [decide_eq_true he] at h2
  simpa using h2

theorem betterThan_self (a : SuccessRec) : betterThan a a = false := by
  simp [betterThan, pidLt_irrefl]

theorem betterThan_asymm {a b : SuccessRec} (h : betterThan a b = true) :
    betterThan b a = false := by
  cases hba : betterThan b a with
  | false => rfl
  | true =>
      exfalso
      rcases betterThan_true_parts h with h1 | ⟨h1, h1p⟩ <;>
        rcases betterThan_true_parts hba with h2 | ⟨h2, h2p⟩
      · exact absurd (Nat.lt_trans h1 h2) (Nat.lt_irrefl _)
      · omega
      · omega
      · rw [pidLt_asymm h1p] at h2p
        exact absurd h2p (by simp)

theorem betterThan_false_trans {t b r : SuccessRec}
    (h1 : betterThan t b = false) (h2 : betterThan b r = false) :
    betterThan t r = false := by
  cases htr : betterThan t r with
  | false => rfl
  | true =>
      exfalso
      have p1 := betterThan_false_parts h1
      have p2 := betterThan_false_parts h2
      rcases betterThan_true_parts htr with h3 | ⟨h3, h3p⟩
      · omega
      · have hbt : b.latency = t.latency := by omega
        have hbr : b.latency = r.latency := by omega
        have q1 : pidLt t.pid b.pid = false := p1.2 hbt.symm
        have q2 : pidLt b.pid r.pid = false := p2.2 hbr
        rcases pidLt_false_total q1 with s1 | s1 <;>
          rcases pidLt_false_total q2 with s2 | s2
        · rw [pidLt_asymm (pidLt_trans s2 s1)] at h3p
          exact absurd h3p (by simp)
        · rw [← s2, pidLt_asymm s1] at h3p
          exact absurd h3p (by simp)
        · rw [s1, pidLt_asymm s2] at h3p
          exact absurd h3p (by simp)
        · rw [s1, s2, pidLt_irrefl] at h3p
          exact absurd h3p (by simp)

theorem pickMin_mem (l : List SuccessRec) : ∀ a, pickMin a l ∈ a :: l := by
  induction l with
  | nil => intro a; simp [pickMin]
  | cons x xs ih =>
      intro a
      have hstep : pickMin a (x :: xs) =
          pickMin (if betterThan x a then x else a) xs := rfl
      rw [hstep]
      by_cases hb : betterThan x a = true
      · rw [if_pos hb]
        exact List.mem_cons_of_mem a (ih x)
      · rw [if_neg hb]
        rcases List.mem_cons.mp (ih a) with h1 | h1
        · rw [h1]; exact List.mem_cons_self _ _
        · exact List.mem_cons_of_mem _ (List.mem_cons_of_mem _ h1)

theorem pickMin_not_better (l : List SuccessRec) :
    ∀ a t, t ∈ a :: l → betterThan t (pickMin a l) = false := by
  induction l with
  | nil =>
      intro a t ht
      have hta : t = a := by simpa using ht
      subst hta
      exact betterThan_self t
  | cons x xs ih =>
      intro a t ht
      have hstep : pickMin a (x :: xs) =
          pickMin (if betterThan x a then x else a) xs := rfl
      rw [hstep]
      by_cases hb : betterThan x a = true
      · rw [if_pos hb]
        rcases List.mem_cons.mp ht with h1 | h1
        · subst h1
          exact betterThan_false_trans (betterThan_asymm hb)
            (ih x x (List.mem_cons_self _ _))
        · exact ih x t h1
      · rw [if_neg hb]
        have hbf : betterThan x a = false := by
          cases hx : betterThan x a
          · rfl
          · exact absurd hx hb
        rcases List.mem_cons.mp ht with h1 | h1
        · subst h1
          exact ih t t (List.mem_cons_self _ _)
        · rcases List.mem_cons.mp h1 with h2 | h2
          · subst h2
            exact betterThan_false_trans hbf (ih a a (List.mem_cons_self _ _))
          · exact ih a t (List.mem_cons_of_mem _ h2)

theorem preferredSuccess_none {preferred : Option String}
    {succ : List SuccessRec}
    (hp : ∀ s ∈ succ, preferred ≠ some s.pid) :
    preferredSuccess preferred succ = none := by
  cases preferred with
  | none => rfl
  | some p =>
      apply List.find?_eq_none.mpr
      intro s hs hc
      rw [beq_iff_eq] at hc
      exact hp s hs (by rw [hc])

theorem adapterCallE_ok (p : ProviderConfig) (raw : AdapterRaw) :
    adapterCallE p raw = Except.ok (adapterCall p raw) := by
  cases raw <;> rfl

theorem callWithRetryE_ok (p : ProviderConfig) (beh : Nat → AdapterRaw) :
    callWithRetryE p beh = Except.ok (callWithRetry p beh).1 := by
  unfold callWithRetryE callWithRetry
  rw [adapterCallE_ok]
  cases h : adapterCall p (beh 0) with
  | Success c pid lat => rfl
  | Failure pid k m =>
      cases ht : isTransient k <;> simp [ht, adapterCallE_ok]

theorem fanOutE_ok (beh : String → Nat → AdapterRaw) :
    ∀ l : List ProviderConfig,
      fanOutE beh l =
        Except.ok (l.map fun p => (callWithRetry p (beh p.provider_id)).1) := by
  intro l
  induction l with
  | nil => rfl
  | cons p ps ih => simp [fanOutE, callWithRetryE_ok, ih]

theorem refactorE_ok (cfg : OrchestratorConfig)
    (beh : String → Nat → AdapterRaw) (req : RefactorRequest) :
    refactorE cfg beh req = Except.ok (refactor cfg beh req) := by
  unfold refactorE refactor refactorTraced
  cases hv : validateRequest req with
  | some k => rfl
  | none =>
      simp only []
      by_cases he : (cfg.providers.filter fun p => p.enabled).isEmpty
      · simp [he]
      · simp only [he, fanOutE_ok, List.map_map, Bool.false_eq_true,
          if_false]
        rfl

/-! Section: Claim theorems -/

/-- Claim C1: for every refactor request the caller of the core receives a
`RefactorResult` and never a raised exception — the exception-aware pipeline
always returns `Except.ok`, every adapter- or provider-level error having
been converted to a typed `Failure` outcome — and a request that fails
validation is reported as a result with `success := false` rather than by
raising. -/
theorem C1_no_exception (cfg : OrchestratorConfig)
    (beh : String → Nat → AdapterRaw) (req : RefactorRequest) :
    refactorE cfg beh req = Except.ok (refactor cfg beh req) ∧
    ((validateRequest req).isSome = true →
      (refactor cfg beh req).success = false) := by
  refine ⟨refactorE_ok cfg beh req, fun h => ?_⟩
  unfold refactor refactorTraced
  cases hv : validateRequest req with
  | none => rw [hv] at h; simp at h
  | some k => rfl

/-- Witness for C1 at a concrete invalid request. -/
theorem C1_witness : (refactor cfgAB behAB reqEmpty).success = false :=
  (C1_no_exception cfgAB behAB reqEmpty).2 (by decide)

/-- Claim C2: a request with empty source code fails validation, and every
request that fails validation yields `success := false` with an empty
adapter-attempt trace — zero provider calls are made. -/
theorem C2_validation_no_fanout (cfg : OrchestratorConfig)
    (beh : String → Nat → AdapterRaw) (req : RefactorRequest) :
    (req.source_code = "" → (validateRequest req).isSome = true) ∧
    (∀ k, validateRequest req = some k →
      (refactor cfg beh req).success = false ∧
      (refactorTraced cfg beh req).2 = []) := by
  refine ⟨fun h => ?_, fun k hk => ?_⟩
  · simp [validateRequest, h]
  · constructor
    · unfold refactor refactorTraced
      rw [hk]
      rfl
    · unfold refactorTraced
      rw [hk]

/-- Witness for C2 at a concrete empty-source request. -/
theorem C2_witness :
    (refactor cfgAB behAB reqEmpty).success = false ∧
    (refactorTraced cfgAB behAB reqEmpty).2 = [] :=
  (C2_validation_no_fanout cfgAB behAB reqEmpty).2 .InvalidRequest (by decide)

/-- Claim C3: for a valid request with at least one enabled provider the
Orchestrator's verdict is the Selector applied to the full outcome list,
which has one settled outcome per enabled provider and contains every
enabled provider's outcome — nothing is discarded and nothing
short-circuits. -/
theorem C3_all_outcomes_settle (cfg : OrchestratorConfig)
    (beh : String → Nat → AdapterRaw) (req : RefactorRequest)
    (hv : validateRequest req = none)
    (he : (cfg.providers.filter fun p => p.enabled).isEmpty = false) :
    refactor cfg beh req =
      select cfg.preferred ((cfg.providers.filter fun p => p.enabled).map
        fun p => (callWithRetry p (beh p.provider_id)).1) ∧
    ((cfg.providers.filter fun p => p.enabled).map
        fun p => (callWithRetry p (beh p.provider_id)).1).length =
      (cfg.providers.filter fun p => p.enabled).length ∧
    ∀ p ∈ cfg.providers.filter fun p => p.enabled,
      (callWithRetry p (beh p.provider_id)).1 ∈
        (cfg.providers.filter fun p => p.enabled).map
          fun p => (callWithRetry p (beh p.provider_id)).1 := by
  refine ⟨?_, List.length_map _ _, fun p hp => List.mem_map_of_mem _ hp⟩
  unfold refactor refactorTraced
  rw [hv]
  simp only [he, Bool.false_eq_true, if_false, List.map_map]
  rfl

/-- Witness for C3 at a concrete two-provider configuration. -/
theorem C3_witness :
    refactor cfgAB behAB reqPy =
      select cfgAB.preferred ((cfgAB.providers.filter fun p => p.enabled).map
        fun p => (callWithRetry p (behAB p.provider_id)).1) ∧
    ((cfgAB.providers.filter fun p => p.enabled).map
        fun p => (callWithRetry p (behAB p.provider_id)).1).length =
      (cfgAB.providers.filter fun p => p.enabled).length ∧
    ∀ p ∈ cfgAB.providers.filter fun p => p.enabled,
      (callWithRetry p (behAB p.provider_id)).1 ∈
        (cfgAB.providers.filter fun p => p.enabled).map
          fun p => (callWithRetry p (behAB p.provider_id)).1 :=
  C3_all_outcomes_settle cfgAB behAB reqPy (by decide) (by decide)

/-- Claim C4: the Result Selector is a pure deterministic function of its
input outcome set — identical outcome sets produce identical results. -/
theorem C4_select_deterministic (preferred : Option String)
    (o₁ o₂ : List ProviderOutcome) (h : o₁ = o₂) :
    select preferred o₁ = select preferred o₂ := by
  rw [h]

/-- Witness for C4 at a concrete outcome set. -/
theorem C4_witness :
    select none [ProviderOutcome.Success "print(1)  # refactored" "A" 200] =
      select none [ProviderOutcome.Success "print(1)  # refactored" "A" 200] :=
  C4_select_deterministic none _ _ rfl

/-- Claim C5: on an outcome set with at least one success and no successful
preferred provider, `select` returns `success := true` with the code of the
success of lowest latency, latency ties broken by the lexicographically
smallest provider id. -/
theorem C5_lowest_latency_wins (preferred : Option String)
    (outcomes : List ProviderOutcome)
    (hne : successRecs outcomes ≠ [])
    (hpref : ∀ s ∈ successRecs outcomes, preferred ≠ some s.pid)
    (hdist : (successRecs outcomes).Pairwise fun a b => a.pid ≠ b.pid) :
    ∃ s ∈ successRecs outcomes,
      select preferred outcomes =
        { refactored_code := s.code, success := true, error := none,
          chosen_provider := some s.pid } ∧
      ∀ t ∈ successRecs outcomes, t ≠ s →
        s.latency < t.latency ∨
          (s.latency = t.latency ∧ pidLt s.pid t.pid = true) := by
  cases hl : successRecs outcomes with
  | nil => exact absurd hl hne
  | cons s0 rest =>
      have hmem : pickMin s0 rest ∈ s0 :: rest := pickMin_mem rest s0
      refine ⟨pickMin s0 rest, hmem, ?_, ?_⟩
      · unfold select
        rw [preferredSuccess_none hpref, hl]
        rfl
      · intro t ht htne
        have hnb : betterThan t (pickMin s0 rest) = false :=
          pickMin_not_better rest s0 t ht
        have hparts := betterThan_false_parts hnb
        rcases Nat.lt_or_ge (pickMin s0 rest).latency t.latency with hlt | hge
        · exact Or.inl hlt
        · have heq : (pickMin s0 rest).latency = t.latency :=
            Nat.le_antisymm hparts.1 hge
          refine Or.inr ⟨heq, ?_⟩
          have hpf : pidLt t.pid (pickMin s0 rest).pid = false :=
            hparts.2 heq.symm
          have hsym : Symmetric (fun a b : SuccessRec => a.pid ≠ b.pid) :=
            fun a b h hc => h hc.symm
          have hne2 : t.pid ≠ (pickMin s0 rest).pid :=
            List.Pairwise.forall hsym hdist (by rw [hl]; exact ht)
              (by rw [hl]; exact hmem) htne
          rcases pidLt_false_total hpf with h1 | h1
          · exact h1
          · exact absurd h1 hne2

/-- Witness for C5 at a concrete outcome set with a latency tie. -/
theorem C5_witness :
    ∃ s ∈ successRecs outcomesW,
      select none outcomesW =
        { refactored_code := s.code, success := true, error := none,
          chosen_provider := some s.pid } ∧
      ∀ t ∈ successRecs outcomesW, t ≠ s →
        s.latency < t.latency ∨
          (s.latency = t.latency ∧ pidLt s.pid t.pid = true) :=
  C5_lowest_latency_wins none outcomesW (by decide) (by decide) (by decide)

/-- Claim C6 (counterexample): the declared response type has a `language`
field and no `chosen_provider` field, so its field set is not
`{refactored_code, success, error, chosen_provider}`. -/
theorem C6_counterexample :
    RefactorResponse.fieldNames.contains "chosen_provider" = false ∧
    RefactorResponse.fieldNames.contains "language" = true ∧
    (RefactorResponse.fieldNames ==
      ["refactored_code", "success", "error", "chosen_provider"]) = false := by
  decide

/-- Claim C6 (amended): every `RefactorResponse` is determined by exactly
the fields `{refactored_code, language, success, error}`, and it carries no
`chosen_provider` field. -/
theorem C6_response_fields :
    (∀ r : RefactorResponse,
      r = ⟨r.refactored_code, r.language, r.success, r.error⟩) ∧
    RefactorResponse.fieldNames =
      ["refactored_code", "language", "success", "error"] ∧
    RefactorResponse.fieldNames.contains "chosen_provider" = false :=
  ⟨fun _ => rfl, rfl, by decide⟩

/-- Claim C7: each provider is attempted at most twice per request; a first
attempt failing with a transient kind is retried exactly once and the second
attempt's outcome is final; a non-transient failure and a success are never
retried. -/
theorem C7_retry_policy (p : ProviderConfig) (beh : Nat → AdapterRaw) :
    (callWithRetry p beh).2.length ≤ 2 ∧
    (∀ pid k m, adapterCall p (beh 0) = .Failure pid k m →
      (isTransient k = true →
        callWithRetry p beh =
          (adapterCall p (beh 1), [p.provider_id, p.provider_id])) ∧
      (isTransient k = false →
        callWithRetry p beh = (.Failure pid k m, [p.provider_id]))) ∧
    (∀ c pid lat, adapterCall p (beh 0) = .Success c pid lat →
      callWithRetry p beh = (.Success c pid lat, [p.provider_id])) := by
  refine ⟨?_, fun pid k m h =>
    ⟨fun ht => ?_, fun ht => ?_⟩, fun c pid lat h => ?_⟩
  · unfold callWithRetry
    cases h : adapterCall p (beh 0) with
    | Success c pid lat => simp
    | Failure pid k m => cases ht : isTransient k <;> simp [ht]
  · simp [callWithRetry, h, ht]
  · simp [callWithRetry, h, ht]
  · simp [callWithRetry, h]

/-- Witness for C7: a concrete timeout on the first attempt is retried and
the second attempt's success is final, with exactly two attempts made. -/
theorem C7_witness :
    callWithRetry pA behT = (ProviderOutcome.Success "ok" "A" 50, ["A", "A"]) :=
  ((C7_retry_policy pA behT).2.1 "A" ErrorKind.Timeout "slow" rfl).1 rfl

/-- Claim C8: `getMonacoLanguage` is total and case-insensitive over the
18-entry language map — an input whose lower-cased form is a key maps to
that key's Monaco id (all ids are non-empty), and any other input maps to
`plaintext`. -/
theorem C8_getMonacoLanguage_total (s : String) :
    languageMap.length = 18 ∧
    ((∃ v, mapLookup languageMap (toLowerS s) = some v ∧
        (toLowerS s, v) ∈ languageMap ∧ getMonacoLanguage s = v) ∨
      (mapLookup languageMap (toLowerS s) = none ∧
        getMonacoLanguage s = "plaintext")) := by
  refine ⟨by decide, ?_⟩
  cases h : mapLookup languageMap (toLowerS s) with
  | none =>
      refine Or.inr ⟨rfl, ?_⟩
      unfold getMonacoLanguage
      rw [h]
      rfl
  | some v =>
      refine Or.inl ⟨v, rfl, mapLookup_mem h, ?_⟩
      have hval : ∀ q ∈ languageMap, ¬ q.2 = "" := by decide
      have hv : ¬ v = "" := hval (toLowerS s, v) (mapLookup_mem h)
      unfold getMonacoLanguage
      rw [h]
      exact if_neg hv

/-- Claim C9 (counterexample): a non-401 server error whose `detail`
contains the words `Authentication failed` produces a thrown message that
does not begin with `Authentication failed:`, yet `checkAuthStatus` catches
it and returns `{authenticated := false}` instead of rethrowing. -/
theorem C9_counterexample :
    strStarts
      (interceptorMessage
        (ApiError.response 403 (some "Authentication failed!") none))
      "Authentication failed:" = false ∧
    checkAuthStatus
        (Except.error
          (ApiError.response 403 (some "Authentication failed!") none)) =
      Except.ok
        { authenticated := false, user := none,
          message := some "Server Error (403): Authentication failed!" } :=
  ⟨by decide, rfl⟩

/-- Claim C9 (amended): a 401 response is always converted into a thrown
error whose message begins with `Authentication failed:`; `checkAuthStatus`
catches exactly the thrown errors whose message contains
`Authentication failed`, returning `{authenticated := false, message}`,
and rethrows every other error; a successful auth-status call passes
through. -/
theorem C9_auth_error_handling :
    (∀ d m, strStarts (interceptorMessage (.response 401 d m))
        "Authentication failed:" = true) ∧
    (∀ e, strIncludes (interceptorMessage e) "Authentication failed" = true →
      checkAuthStatus (.error e) =
        .ok { authenticated := false, user := none,
              message := some (interceptorMessage e) }) ∧
    (∀ e, strIncludes (interceptorMessage e) "Authentication failed" = false →
      checkAuthStatus (.error e) = .error (interceptorMessage e)) ∧
    (∀ d, checkAuthStatus (.ok d) = .ok d) := by
  refine ⟨fun d m => rfl, fun e h => ?_, fun e h => ?_, fun d => rfl⟩
  · simp [checkAuthStatus, h]
  · simp [checkAuthStatus, h]

/-- Witness for C9 at the concrete 401 message. -/
theorem C9_witness :
    checkAuthStatus (Except.error (ApiError.response 401 none none)) =
      Except.ok
        { authenticated := false, user := none,
          message := some "Authentication failed: Please check your API token or contact the administrator." } :=
  C9_auth_error_handling.2.1 (ApiError.response 401 none none) (by decide)

/-- Claim C10: whenever the refactor call actually runs (the three guards
pass), `handleRefactor` leaves `isLoading = false` on every completion
path — result success, result failure, or thrown error. -/
theorem C10_isLoading_reset (backendStatus authStatus : String)
    (st : AppState) (call : Except Thrown RefactorResponse)
    (h1 : jsTrim st.inputCode ≠ "") (h2 : backendStatus = "connected")
    (h3 : authStatus ≠ "failed") :
    (handleRefactor backendStatus authStatus st call).isLoading = false := by
  unfold handleRefactor
  rw [if_neg h1, if_neg (fun hc : backendStatus ≠ "connected" => hc h2),
    if_neg h3]
  cases call with
  | ok r => cases hr : r.success <;> simp [hr]
  | error t => rfl

/-- Witness for C10 at a concrete state and a thrown error. -/
theorem C10_witness :
    (handleRefactor "connected" "authenticated" stW
      (Except.error Thrown.nonErr)).isLoading = false :=
  C10_isLoading_reset "connected" "authenticated" stW
    (Except.error Thrown.nonErr) (by decide) rfl (by decide)

end CodeRefinery
